import Mathlib

/-!
Verification of the date/time format validator in
src/rust/pact_matching/src/time_utils.rs.

Strings are modelled as lists of characters. A nom parser over
CompleteStr is modelled as a function returning Option (remaining,
output); nom CompleteStr parsers never return Incomplete, and the
failure case carries no information used by the program other than
being a failure, so Option is a faithful shallow embedding.
-/

namespace TimeUtils

/-- The apostrophe character (code 39), used by the quoted-literal rules. -/
def quoteCh : Char := Char.ofNat 39

/-- Mirrors the DateTimePatternToken enum of time_utils.rs. -/
inductive DateTimePatternToken where
  | Era
  | Year
  | Month
  | Text (t : List Char)
  | WeekInYear
  | WeekInMonth
  | DayInYear
  | DayInMonth
  | DayOfWeekInMonth
  | DayName
  | DayOfWeek
deriving DecidableEq, Repr

/-- Mirrors fn is_digit: ch.is_ascii_digit(). -/
def is_digit (ch : Char) : Bool := ch.isDigit

/-- Digit value a run of ASCII digits denotes, most significant first.
Mirrors the numeric value of str::parse on a digit-only string. -/
def natOfDigits (s : List Char) : Nat :=
  s.foldl (fun a c => a * 10 + (c.toNat - 48)) 0

/-- Mirrors m.0.parse::<usize>() as used in validate_number. All call
sites pass a run of 1 or 2 ASCII digits produced by take_while_m_n or
digit1, so the sign and overflow cases of the Rust parser are
unreachable; on digit-only runs parse succeeds with the denoted value,
and it fails on an empty string. -/
def parseUsize (s : List Char) : Option Nat :=
  if s ≠ [] ∧ s.all is_digit then some (natOfDigits s) else none

/-- Mirrors fn validate_number (the num_type argument only feeds the
error message, which no caller inspects, so it is dropped): parse the
matched run, succeed exactly when the value lies in [lower, upper]. -/
def validate_number (m : List Char) (lower upper : Nat) : Bool :=
  match parseUsize m with
  | some v => decide (lower ≤ v) && decide (v ≤ upper)
  | none => false

/-- Mirrors fn validate_month. -/
def validate_month (m : List Char) : Bool := validate_number m 1 12

/-- Mirrors fn validate_week_in_year. -/
def validate_week_in_year (m : List Char) : Bool := validate_number m 1 56

/-- Mirrors fn validate_week_in_month. -/
def validate_week_in_month (m : List Char) : Bool := validate_number m 1 5

/-- Mirrors fn validate_day_in_year. -/
def validate_day_in_year (m : List Char) : Bool := validate_number m 1 356

/-- Mirrors fn validate_day_in_month. -/
def validate_day_in_month (m : List Char) : Bool := validate_number m 1 31

/-- Mirrors fn validate_day_of_week. -/
def validate_day_of_week (m : List Char) : Bool := validate_number m 1 7

/-- Ordered alternation on parse results, mirrors nom alt!. -/
def altp {α : Type} (a b : Option α) : Option α :=
  match a with
  | some x => some x
  | none => b

/-- Mirrors nom tag!: match the literal t exactly at the head of s. -/
def tag (t : List Char) (s : List Char) : Option (List Char × List Char) :=
  if s.take t.length = t then some (s.drop t.length, t) else none

/-- ASCII lowercasing of a character list, as nom tag_no_case compares. -/
def lowerL (s : List Char) : List Char := s.map Char.toLower

/-- Mirrors nom tag_no_case!: match the literal t at the head of s,
comparing case-insensitively; the consumed input is returned. -/
def tagNoCase (t : List Char) (s : List Char) : Option (List Char × List Char) :=
  if lowerL (s.take t.length) = lowerL t
  then some (s.drop t.length, s.take t.length)
  else none

/-- An ordered alternation of case-insensitive literals, mirrors
alt!(tag_no_case!(..) | tag_no_case!(..) | ...). -/
def tagsNoCaseAlt (tags : List (List Char)) (s : List Char) : Option (List Char × List Char) :=
  match tags with
  | [] => none
  | t :: ts => altp (tagNoCase t s) (tagsNoCaseAlt ts s)

/-- Mirrors nom take_while_m_n!(mn, mx, p): take the longest prefix of
characters satisfying p, capped at mx characters; fail when fewer than
mn characters were taken. -/
def takeWhileMN (mn mx : Nat) (p : Char → Bool) (s : List Char) : Option (List Char × List Char) :=
  if mn ≤ ((s.takeWhile p).take mx).length
  then some (s.drop ((s.takeWhile p).take mx).length, (s.takeWhile p).take mx)
  else none

/-- Mirrors nom map_res!: run the parser, keep its result exactly when
the validator accepts the matched run. -/
def mapRes (p : List Char → Option (List Char × List Char)) (f : List Char → Bool)
    (s : List Char) : Option (List Char × List Char) :=
  match p s with
  | some (rest, m) => if f m then some (rest, m) else none
  | none => none

/-- Mirrors nom digit1: one or more ASCII digits. -/
def digit1 (s : List Char) : Option (List Char × List Char) :=
  if (s.takeWhile is_digit).isEmpty
  then none
  else some (s.drop (s.takeWhile is_digit).length, s.takeWhile is_digit)

/-- Mirrors many1!(char!(c)): a maximal nonempty run of the letter c,
returning the remaining input. -/
def letterRun (c : Char) (s : List Char) : Option (List Char) :=
  if (s.takeWhile (fun ch => ch == c)).isEmpty
  then none
  else some (s.drop (s.takeWhile (fun ch => ch == c)).length)

/-- Mirrors many1!(is_a!(cs)): a maximal nonempty run of characters
from the set cs, returning the remaining input. is_a already consumes
a maximal run, so the surrounding many1 stops after one iteration. -/
def setRun (cs : List Char) (s : List Char) : Option (List Char) :=
  if (s.takeWhile (fun ch => cs.contains ch)).isEmpty
  then none
  else some (s.drop (s.takeWhile (fun ch => cs.contains ch)).length)

/-- Mirrors era_pattern. -/
def era_pattern (s : List Char) : Option (List Char × DateTimePatternToken) :=
  (letterRun 'G' s).map (fun r => (r, DateTimePatternToken.Era))

/-- Mirrors week_in_year_pattern. -/
def week_in_year_pattern (s : List Char) : Option (List Char × DateTimePatternToken) :=
  (letterRun 'w' s).map (fun r => (r, DateTimePatternToken.WeekInYear))

/-- Mirrors week_in_month_pattern. -/
def week_in_month_pattern (s : List Char) : Option (List Char × DateTimePatternToken) :=
  (letterRun 'W' s).map (fun r => (r, DateTimePatternToken.WeekInMonth))

/-- Mirrors day_in_year_pattern. -/
def day_in_year_pattern (s : List Char) : Option (List Char × DateTimePatternToken) :=
  (letterRun 'D' s).map (fun r => (r, DateTimePatternToken.DayInYear))

/-- Mirrors day_in_month_pattern. -/
def day_in_month_pattern (s : List Char) : Option (List Char × DateTimePatternToken) :=
  (letterRun 'd' s).map (fun r => (r, DateTimePatternToken.DayInMonth))

/-- Mirrors day_of_week_in_month_pattern. -/
def day_of_week_in_month_pattern (s : List Char) : Option (List Char × DateTimePatternToken) :=
  (letterRun 'F' s).map (fun r => (r, DateTimePatternToken.DayOfWeekInMonth))

/-- Mirrors day_name_pattern. -/
def day_name_pattern (s : List Char) : Option (List Char × DateTimePatternToken) :=
  (letterRun 'E' s).map (fun r => (r, DateTimePatternToken.DayName))

/-- Mirrors day_of_week_pattern. -/
def day_of_week_pattern (s : List Char) : Option (List Char × DateTimePatternToken) :=
  (letterRun 'u' s).map (fun r => (r, DateTimePatternToken.DayOfWeek))

/-- Mirrors year_pattern: many1!(is_a!("yY")). -/
def year_pattern (s : List Char) : Option (List Char × DateTimePatternToken) :=
  (setRun "yY".toList s).map (fun r => (r, DateTimePatternToken.Year))

/-- Mirrors month_pattern: many1!(is_a!("ML")). -/
def month_pattern (s : List Char) : Option (List Char × DateTimePatternToken) :=
  (setRun "ML".toList s).map (fun r => (r, DateTimePatternToken.Month))

/-- The character set excluded by text_pattern: the reserved letters
and the apostrophe, as in none_of!("GyYMLwWdDFEu\x27"). -/
def reservedChars : List Char := "GyYMLwWdDFEu".toList ++ [quoteCh]

/-- Mirrors text_pattern: many1!(none_of!(..)) collected into a Text
token. -/
def text_pattern (s : List Char) : Option (List Char × DateTimePatternToken) :=
  if (s.takeWhile (fun ch => !(reservedChars.contains ch))).isEmpty
  then none
  else some (s.drop (s.takeWhile (fun ch => !(reservedChars.contains ch))).length,
    DateTimePatternToken.Text (s.takeWhile (fun ch => !(reservedChars.contains ch))))

/-- Mirrors the many1!(alt!(tag!("\x27\x27") | is_not!("\x27"))) loop
inside quoted_text_pattern: the list of matched segments (each either
a doubled apostrophe or a maximal apostrophe-free run) and the
remaining input where neither alternative applies. The is_not run is
built one character at a time, merging a non-apostrophe character into
an immediately following apostrophe-free segment, which yields exactly
the maximal runs nom produces. -/
def quotedSegs : List Char → List (List Char) × List Char
  | [] => ([], [])
  | c :: rest =>
    if c = quoteCh then
      match rest with
      | c2 :: rest2 =>
        if c2 = quoteCh then
          match quotedSegs rest2 with
          | (segs, r) => ([quoteCh, quoteCh] :: segs, r)
        else ([], c :: rest)
      | [] => ([], [c])
    else
      match quotedSegs rest with
      | (seg :: segs, r) =>
        if seg.head? = some quoteCh then ([c] :: seg :: segs, r)
        else ((c :: seg) :: segs, r)
      | ([], r) => ([[c]], r)

/-- Mirrors the itertools coalesce closure of quoted_text_pattern:
adjacent doubled apostrophes collapse to one apostrophe. -/
def coalesceGo (x : Char) : List Char → List Char
  | [] => [x]
  | y :: rest =>
    if x = quoteCh ∧ y = quoteCh then coalesceGo quoteCh rest
    else x :: coalesceGo y rest

/-- Coalesce over a whole segment, empty segments unchanged. -/
def coalesceQuotes : List Char → List Char
  | [] => []
  | c :: rest => coalesceGo c rest

/-- Mirrors quoted_text_pattern: an opening apostrophe, one or more
segments, a closing apostrophe; the segments are coalesced and joined
into a single Text token. -/
def quoted_text_pattern (s : List Char) : Option (List Char × DateTimePatternToken) :=
  match s with
  | c :: s1 =>
    if c = quoteCh then
      match quotedSegs s1 with
      | (segs, rest) =>
        if segs = [] then none
        else
          match rest with
          | c2 :: r2 =>
            if c2 = quoteCh
            then some (r2, DateTimePatternToken.Text ((segs.map coalesceQuotes).flatten))
            else none
          | [] => none
    else none
  | [] => none

/-- Mirrors quote_pattern: a bare doubled apostrophe becomes a Text
token holding one apostrophe. -/
def quote_pattern (s : List Char) : Option (List Char × DateTimePatternToken) :=
  if s.take 2 = [quoteCh, quoteCh]
  then some (s.drop 2, DateTimePatternToken.Text [quoteCh])
  else none

/-- The alternation inside parse_pattern, in source order. -/
def patternStep (s : List Char) : Option (List Char × DateTimePatternToken) :=
  altp (era_pattern s) (altp (year_pattern s) (altp (month_pattern s)
    (altp (week_in_year_pattern s) (altp (week_in_month_pattern s)
    (altp (day_in_year_pattern s) (altp (day_in_month_pattern s)
    (altp (day_of_week_in_month_pattern s) (altp (day_name_pattern s)
    (altp (day_of_week_pattern s) (altp (quoted_text_pattern s)
    (altp (quote_pattern s) (text_pattern s))))))))))))

/-- The many0! loop of parse_pattern, driven by a fuel counter; each
successful step consumes at least one character (proved below), so
fuel of length + 1 always runs the loop to the point where no
recognizer applies, exactly as nom does. -/
def parsePatternGo : Nat → List Char → List Char × List DateTimePatternToken
  | 0, s => (s, [])
  | fuel + 1, s =>
    match patternStep s with
    | some (r, t) =>
      match parsePatternGo fuel r with
      | (rest, ts) => (rest, t :: ts)
    | none => (s, [])

/-- Mirrors parse_pattern: many0! of the alternation. nom many0 fails
only when the inner parser succeeds without consuming input, which the
consumption lemma below rules out, so the Ok result (remaining input,
tokens) is total. -/
def parse_pattern (s : List Char) : List Char × List DateTimePatternToken :=
  parsePatternGo (s.length + 1) s

/-- Mirrors the value-side era recognizer. -/
def era (s : List Char) : Option (List Char × List Char) :=
  tagsNoCaseAlt ["ad".toList, "bc".toList] s

/-- The month name literals of month_text, in source order. -/
def monthTags : List (List Char) :=
  ["january".toList, "jan".toList,
   "february".toList, "feb".toList,
   "march".toList, "mar".toList,
   "april".toList, "apr".toList,
   "may".toList, "may".toList,
   "june".toList, "jun".toList,
   "july".toList, "jul".toList,
   "august".toList, "aug".toList,
   "september".toList, "sep".toList,
   "october".toList, "oct".toList,
   "november".toList, "nov".toList,
   "december".toList, "dec".toList]

/-- Mirrors month_text. -/
def month_text (s : List Char) : Option (List Char × List Char) :=
  tagsNoCaseAlt monthTags s

/-- Mirrors month_num. -/
def month_num (s : List Char) : Option (List Char × List Char) :=
  mapRes (takeWhileMN 1 2 is_digit) validate_month s

/-- Mirrors month: alt!(month_text | month_num). -/
def month (s : List Char) : Option (List Char × List Char) :=
  altp (month_text s) (month_num s)

/-- Mirrors week_in_year. -/
def week_in_year (s : List Char) : Option (List Char × List Char) :=
  mapRes (takeWhileMN 1 2 is_digit) validate_week_in_year s

/-- Mirrors week_in_month. -/
def week_in_month (s : List Char) : Option (List Char × List Char) :=
  mapRes (takeWhileMN 1 2 is_digit) validate_week_in_month s

/-- Mirrors day_in_year. -/
def day_in_year (s : List Char) : Option (List Char × List Char) :=
  mapRes (takeWhileMN 1 2 is_digit) validate_day_in_year s

/-- Mirrors day_in_month. -/
def day_in_month (s : List Char) : Option (List Char × List Char) :=
  mapRes (takeWhileMN 1 2 is_digit) validate_day_in_month s

/-- Mirrors day_of_week. -/
def day_of_week (s : List Char) : Option (List Char × List Char) :=
  mapRes (takeWhileMN 1 1 is_digit) validate_day_of_week s

/-- Mirrors text: tag! of the Text token payload. -/
def text (t : List Char) (s : List Char) : Option (List Char × List Char) :=
  tag t s

/-- The weekday name literals of day_of_week_name, in source order. -/
def dayTags : List (List Char) :=
  ["sunday".toList, "sun".toList,
   "monday".toList, "mon".toList,
   "tuesday".toList, "tue".toList,
   "wednesday".toList, "wed".toList,
   "thursday".toList, "thu".toList,
   "friday".toList, "fri".toList,
   "saturday".toList, "sat".toList]

/-- Mirrors day_of_week_name. -/
def day_of_week_name (s : List Char) : Option (List Char × List Char) :=
  tagsNoCaseAlt dayTags s

/-- The observable failures of validate_datetime_string: a token whose
recognizer rejects the remaining buffer, or unconsumed characters left
after the last token. The Rust code formats each into an error string;
the string content beyond the carried data is presentation only. -/
inductive DTError where
  | tokenFailure (remaining : List Char)
  | remainingData (remaining : List Char)
deriving DecidableEq, Repr

deriving instance DecidableEq for Except

/-- The for-loop of validate_datetime_string: thread the buffer
through each token recognizer in order, failing fast; returns the
final buffer. -/
def applyTokens (buffer : List Char) : List DateTimePatternToken → Except DTError (List Char)
  | [] => Except.ok buffer
  | token :: ts =>
    match
      (match token with
       | DateTimePatternToken.Era => era buffer
       | DateTimePatternToken.Year => digit1 buffer
       | DateTimePatternToken.WeekInYear => week_in_year buffer
       | DateTimePatternToken.WeekInMonth => week_in_month buffer
       | DateTimePatternToken.DayInYear => day_in_year buffer
       | DateTimePatternToken.DayInMonth => day_in_month buffer
       | DateTimePatternToken.Month => month buffer
       | DateTimePatternToken.Text t => text t buffer
       | DateTimePatternToken.DayOfWeekInMonth => digit1 buffer
       | DateTimePatternToken.DayName => day_of_week_name buffer
       | DateTimePatternToken.DayOfWeek => day_of_week buffer) with
    | some (rest, _) => applyTokens rest ts
    | none => Except.error (DTError.tokenFailure buffer)

/-- Mirrors validate_datetime_string: run every token, then fail when
any characters remain unconsumed. -/
def validate_datetime_string (value : List Char) (pattern_tokens : List DateTimePatternToken) :
    Except DTError Unit :=
  match applyTokens value pattern_tokens with
  | Except.ok buffer =>
    if buffer.length > 0 then Except.error (DTError.remainingData buffer)
    else Except.ok ()
  | Except.error e => Except.error e

/-- Mirrors validate_datetime: compile the format, then validate the
value against the compiled tokens (the second component, as the Rust
code takes pattern_tokens.1 from the nom pair and discards the
unconsumed remainder of the format). The Err branch of the Rust match
is unreachable because many0 never fails here, as proved below. -/
def validate_datetime (value : List Char) (format : List Char) : Except DTError Unit :=
  validate_datetime_string value (parse_pattern format).2


/-! ### Basic facts about the combinators -/

theorem altp_none {α : Type} (b : Option α) : altp none b = b := rfl

theorem altp_some {α : Type} (x : α) (b : Option α) : altp (some x) b = some x := rfl

theorem altp_eq_some {α : Type} {a b : Option α} {x : α} :
    altp a b = some x ↔ a = some x ∨ (a = none ∧ b = some x) := by
  cases a <;> simp [altp]

theorem length_drop_lt {s : List Char} {k : Nat} (hs : s ≠ []) (hk : 1 ≤ k) :
    (s.drop k).length < s.length := by
  rw [List.length_drop]
  exact Nat.sub_lt (List.length_pos.mpr hs) hk

theorem takeWhile_drop_lt (p : Char → Bool) (s : List Char)
    (h : ¬ (s.takeWhile p).isEmpty = true) :
    (s.drop (s.takeWhile p).length).length < s.length := by
  have ht : s.takeWhile p ≠ [] := by simpa [List.isEmpty_iff] using h
  have hs : s ≠ [] := by
    intro he
    subst he
    simp at ht
  exact length_drop_lt hs (List.length_pos.mpr ht)

theorem letterRun_lt {c : Char} {s r : List Char} (h : letterRun c s = some r) :
    r.length < s.length := by
  unfold letterRun at h
  by_cases he : ((s.takeWhile (fun ch => ch == c)).isEmpty = true)
  · rw [if_pos he] at h
    cases h
  · rw [if_neg he] at h
    cases h
    exact takeWhile_drop_lt _ _ he

theorem setRun_lt {cs : List Char} {s r : List Char} (h : setRun cs s = some r) :
    r.length < s.length := by
  unfold setRun at h
  by_cases he : ((s.takeWhile (fun ch => cs.contains ch)).isEmpty = true)
  · rw [if_pos he] at h
    cases h
  · rw [if_neg he] at h
    cases h
    exact takeWhile_drop_lt _ _ he

theorem mapTok_lt {p : List Char → Option (List Char)} {tk : DateTimePatternToken}
    (hp : ∀ {s r : List Char}, p s = some r → r.length < s.length)
    {s r : List Char} {t : DateTimePatternToken}
    (h : (p s).map (fun r0 => (r0, tk)) = some (r, t)) : r.length < s.length := by
  rcases Option.map_eq_some'.mp h with ⟨r0, hr0, heq⟩
  rw [Prod.mk.injEq] at heq
  rw [← heq.1]
  exact hp hr0

theorem text_pattern_lt {s r : List Char} {t : DateTimePatternToken}
    (h : text_pattern s = some (r, t)) : r.length < s.length := by
  unfold text_pattern at h
  by_cases he : ((s.takeWhile (fun ch => !(reservedChars.contains ch))).isEmpty = true)
  · rw [if_pos he] at h
    cases h
  · rw [if_neg he] at h
    rw [Option.some.injEq, Prod.mk.injEq] at h
    rw [← h.1]
    exact takeWhile_drop_lt _ _ he

theorem quote_pattern_lt {s r : List Char} {t : DateTimePatternToken}
    (h : quote_pattern s = some (r, t)) : r.length < s.length := by
  unfold quote_pattern at h
  by_cases hc : s.take 2 = [quoteCh, quoteCh]
  · rw [if_pos hc, Option.some.injEq, Prod.mk.injEq] at h
    have hlen : 2 ≤ s.length := by
      have h2 := congrArg List.length hc
      simp [List.length_take] at h2
      omega
    rw [← h.1]
    exact length_drop_lt (by intro he; subst he; simp at hlen) (by omega)
  · rw [if_neg hc] at h
    cases h

theorem quotedSegs_len (s : List Char) : (quotedSegs s).2.length ≤ s.length := by
  induction s using quotedSegs.induct with
  | case1 => simp [quotedSegs]
  | case2 rest2 segs r heq ih =>
    rw [heq] at ih
    rw [quotedSegs.eq_def]
    dsimp only
    rw [if_pos rfl, if_pos rfl, heq]
    dsimp only
    simp at ih ⊢
    omega
  | case3 c2 rest2 hc2 =>
    rw [quotedSegs.eq_def]
    dsimp only
    rw [if_pos rfl, if_neg hc2]
  | case4 => simp [quotedSegs]
  | case5 c rest hc seg segs r heq hhead ih =>
    rw [heq] at ih
    rw [quotedSegs.eq_def]
    dsimp only
    rw [if_neg hc, heq]
    dsimp only
    rw [if_pos hhead]
    simp at ih ⊢
    omega
  | case6 c rest hc seg segs r heq hhead ih =>
    rw [heq] at ih
    rw [quotedSegs.eq_def]
    dsimp only
    rw [if_neg hc, heq]
    dsimp only
    rw [if_neg hhead]
    simp at ih ⊢
    omega
  | case7 c rest hc r heq ih =>
    rw [heq] at ih
    rw [quotedSegs.eq_def]
    dsimp only
    rw [if_neg hc, heq]
    simp at ih ⊢
    omega

theorem quoted_text_pattern_lt {s r : List Char} {t : DateTimePatternToken}
    (h : quoted_text_pattern s = some (r, t)) : r.length < s.length := by
  cases s with
  | nil => simp [quoted_text_pattern] at h
  | cons c s1 =>
    unfold quoted_text_pattern at h
    dsimp only at h
    by_cases hc : c = quoteCh
    · rw [if_pos hc] at h
      rcases hqs : quotedSegs s1 with ⟨segs, rest⟩
      rw [hqs] at h
      dsimp only at h
      by_cases hsegs : segs = []
      · rw [if_pos hsegs] at h
        cases h
      · rw [if_neg hsegs] at h
        cases rest with
        | nil => cases h
        | cons c2 r2 =>
          dsimp only at h
          by_cases hc2 : c2 = quoteCh
          · rw [if_pos hc2, Option.some.injEq, Prod.mk.injEq] at h
            have hlen := quotedSegs_len s1
            rw [hqs] at hlen
            simp only [List.length_cons] at hlen ⊢
            rw [← h.1]
            omega
          · rw [if_neg hc2] at h
            cases h
    · rw [if_neg hc] at h
      cases h

/-- Every successful step of the pattern alternation consumes at least
one character of the format string; this is also why the surrounding
nom many0 loop can never fail (it fails only on a successful
zero-length inner parse). -/
theorem patternStep_lt {s r : List Char} {t : DateTimePatternToken}
    (h : patternStep s = some (r, t)) : r.length < s.length := by
  unfold patternStep at h
  rcases altp_eq_some.mp h with h1 | ⟨_, h⟩
  · unfold era_pattern at h1
    exact mapTok_lt letterRun_lt h1
  rcases altp_eq_some.mp h with h1 | ⟨_, h⟩
  · unfold year_pattern at h1
    exact mapTok_lt setRun_lt h1
  rcases altp_eq_some.mp h with h1 | ⟨_, h⟩
  · unfold month_pattern at h1
    exact mapTok_lt setRun_lt h1
  rcases altp_eq_some.mp h with h1 | ⟨_, h⟩
  · unfold week_in_year_pattern at h1
    exact mapTok_lt letterRun_lt h1
  rcases altp_eq_some.mp h with h1 | ⟨_, h⟩
  · unfold week_in_month_pattern at h1
    exact mapTok_lt letterRun_lt h1
  rcases altp_eq_some.mp h with h1 | ⟨_, h⟩
  · unfold day_in_year_pattern at h1
    exact mapTok_lt letterRun_lt h1
  rcases altp_eq_some.mp h with h1 | ⟨_, h⟩
  · unfold day_in_month_pattern at h1
    exact mapTok_lt letterRun_lt h1
  rcases altp_eq_some.mp h with h1 | ⟨_, h⟩
  · unfold day_of_week_in_month_pattern at h1
    exact mapTok_lt letterRun_lt h1
  rcases altp_eq_some.mp h with h1 | ⟨_, h⟩
  · unfold day_name_pattern at h1
    exact mapTok_lt letterRun_lt h1
  rcases altp_eq_some.mp h with h1 | ⟨_, h⟩
  · unfold day_of_week_pattern at h1
    exact mapTok_lt letterRun_lt h1
  rcases altp_eq_some.mp h with h1 | ⟨_, h⟩
  · exact quoted_text_pattern_lt h1
  rcases altp_eq_some.mp h with h1 | ⟨_, h⟩
  · exact quote_pattern_lt h1
  exact text_pattern_lt h

theorem patternStep_nil : patternStep ([] : List Char) = none := by decide

theorem parsePatternGo_nil (n : Nat) : parsePatternGo n [] = ([], []) := by
  cases n with
  | zero => rfl
  | succ m =>
    rw [parsePatternGo, patternStep_nil]

/-- With fuel exceeding the length of the input, the many0 loop runs
until no recognizer applies: the remaining format suffix admits no
further token. -/
theorem parsePatternGo_max : ∀ (fuel : Nat) (s : List Char), s.length < fuel →
    patternStep (parsePatternGo fuel s).1 = none := by
  intro fuel
  induction fuel with
  | zero => intro s hs; omega
  | succ n ih =>
    intro s hs
    rw [parsePatternGo]
    rcases hstep : patternStep s with _ | ⟨r, t⟩
    · exact hstep
    · have hlt := patternStep_lt hstep
      rcases hgo : parsePatternGo n r with ⟨rest, ts⟩
      have := ih r (by omega)
      rw [hgo] at this
      simpa [hgo] using this

theorem parse_pattern_max (s : List Char) : patternStep (parse_pattern s).1 = none :=
  parsePatternGo_max (s.length + 1) s (by omega)


/-! ### Case-insensitive tag alternation -/

theorem lowerL_take (s : List Char) (n : Nat) : lowerL (s.take n) = (lowerL s).take n :=
  List.map_take _ _ _

theorem lowerL_length (s : List Char) : (lowerL s).length = s.length :=
  List.length_map _ _

/-- The first tag of the list that matches the (already lowercased)
head of the input; this is the alternative an ordered nom alt! commits
to. -/
def firstTagMatch (tags : List (List Char)) (L : List Char) : Option (List Char) :=
  match tags with
  | [] => none
  | t :: ts => if L.take t.length = lowerL t then some t else firstTagMatch ts L

theorem tagsNoCaseAlt_eq (tags : List (List Char)) (s : List Char) :
    tagsNoCaseAlt tags s =
      match firstTagMatch tags (lowerL s) with
      | some t => some (s.drop t.length, s.take t.length)
      | none => none := by
  induction tags with
  | nil => rfl
  | cons t ts ih =>
    show altp (tagNoCase t s) (tagsNoCaseAlt ts s) = _
    unfold tagNoCase firstTagMatch
    rw [lowerL_take]
    by_cases hc : (lowerL s).take t.length = lowerL t
    · rw [if_pos hc, if_pos hc, altp_some]
    · rw [if_neg hc, if_neg hc, altp_none, ih]

/-- When a whole input is (case-insensitively) equal to the tag that
the ordered alternation commits to, the alternation consumes the whole
input. -/
theorem tagsNoCaseAlt_full {tags : List (List Char)} {s t : List Char}
    (h : lowerL s = lowerL t)
    (hfind : firstTagMatch tags (lowerL t) = some t) :
    tagsNoCaseAlt tags s = some ([], s) := by
  have hlen : s.length = t.length := by
    rw [← lowerL_length s, h, lowerL_length]
  rw [tagsNoCaseAlt_eq, h, hfind]
  dsimp only
  rw [← hlen, List.drop_length, List.take_length]

theorem month_full {s t : List Char} (h : lowerL s = lowerL t)
    (hfind : firstTagMatch monthTags (lowerL t) = some t) :
    month s = some ([], s) := by
  unfold month month_text
  rw [tagsNoCaseAlt_full h hfind, altp_some]

theorem day_name_full {s t : List Char} (h : lowerL s = lowerL t)
    (hfind : firstTagMatch dayTags (lowerL t) = some t) :
    day_of_week_name s = some ([], s) := by
  unfold day_of_week_name
  exact tagsNoCaseAlt_full h hfind

theorem validate_M_ok {s : List Char} (hm : month s = some ([], s)) :
    validate_datetime s "M".toList = Except.ok () := by
  have hp : parse_pattern "M".toList = ([], [DateTimePatternToken.Month]) := by decide
  rw [validate_datetime, hp]
  simp [validate_datetime_string, applyTokens, hm]

theorem validate_EEE_ok {s : List Char} (hm : day_of_week_name s = some ([], s)) :
    validate_datetime s "EEE".toList = Except.ok () := by
  have hp : parse_pattern "EEE".toList = ([], [DateTimePatternToken.DayName]) := by decide
  rw [validate_datetime, hp]
  simp [validate_datetime_string, applyTokens, hm]

/-- The twelve full English month names, lowercase. -/
def fullMonthNames : List (List Char) :=
  ["january".toList, "february".toList, "march".toList, "april".toList,
   "may".toList, "june".toList, "july".toList, "august".toList,
   "september".toList, "october".toList, "november".toList, "december".toList]

/-- The seven full English weekday names, lowercase. -/
def fullDayNames : List (List Char) :=
  ["sunday".toList, "monday".toList, "tuesday".toList, "wednesday".toList,
   "thursday".toList, "friday".toList, "saturday".toList]


/-- C7: each full English month name, in any letter case, validates
against pattern M with the whole name consumed (the alternation is
ordered full-name-first, so it is never cut short at the 3-letter
abbreviation), and each full weekday name likewise validates against
pattern EEE. -/
theorem c7_longest_match_names : ∀ s : List Char,
    (lowerL s ∈ fullMonthNames → validate_datetime s "M".toList = Except.ok ()) ∧
    (lowerL s ∈ fullDayNames → validate_datetime s "EEE".toList = Except.ok ()) := by
  intro s
  constructor
  · intro hmem
    simp only [fullMonthNames, List.mem_cons, List.not_mem_nil, or_false] at hmem
    rcases hmem with h|h|h|h|h|h|h|h|h|h|h|h
    · exact validate_M_ok (month_full (t := "january".toList) (by rw [h]; decide) (by decide))
    · exact validate_M_ok (month_full (t := "february".toList) (by rw [h]; decide) (by decide))
    · exact validate_M_ok (month_full (t := "march".toList) (by rw [h]; decide) (by decide))
    · exact validate_M_ok (month_full (t := "april".toList) (by rw [h]; decide) (by decide))
    · exact validate_M_ok (month_full (t := "may".toList) (by rw [h]; decide) (by decide))
    · exact validate_M_ok (month_full (t := "june".toList) (by rw [h]; decide) (by decide))
    · exact validate_M_ok (month_full (t := "july".toList) (by rw [h]; decide) (by decide))
    · exact validate_M_ok (month_full (t := "august".toList) (by rw [h]; decide) (by decide))
    · exact validate_M_ok (month_full (t := "september".toList) (by rw [h]; decide) (by decide))
    · exact validate_M_ok (month_full (t := "october".toList) (by rw [h]; decide) (by decide))
    · exact validate_M_ok (month_full (t := "november".toList) (by rw [h]; decide) (by decide))
    · exact validate_M_ok (month_full (t := "december".toList) (by rw [h]; decide) (by decide))
  · intro hmem
    simp only [fullDayNames, List.mem_cons, List.not_mem_nil, or_false] at hmem
    rcases hmem with h|h|h|h|h|h|h
    · exact validate_EEE_ok (day_name_full (t := "sunday".toList) (by rw [h]; decide) (by decide))
    · exact validate_EEE_ok (day_name_full (t := "monday".toList) (by rw [h]; decide) (by decide))
    · exact validate_EEE_ok (day_name_full (t := "tuesday".toList) (by rw [h]; decide) (by decide))
    · exact validate_EEE_ok (day_name_full (t := "wednesday".toList) (by rw [h]; decide) (by decide))
    · exact validate_EEE_ok (day_name_full (t := "thursday".toList) (by rw [h]; decide) (by decide))
    · exact validate_EEE_ok (day_name_full (t := "friday".toList) (by rw [h]; decide) (by decide))
    · exact validate_EEE_ok (day_name_full (t := "saturday".toList) (by rw [h]; decide) (by decide))

/-- C7 witness: concrete mixed-case instances. -/
theorem c7_witness :
    validate_datetime "JaNuArY".toList "M".toList = Except.ok () ∧
    validate_datetime "SUNday".toList "EEE".toList = Except.ok () :=
  ⟨(c7_longest_match_names "JaNuArY".toList).1 (by decide),
   (c7_longest_match_names "SUNday".toList).2 (by decide)⟩


/-! ### Digit runs -/

theorem all_digits_takeWhile {s : List Char} (hd : s.all is_digit) :
    s.takeWhile is_digit = s :=
  List.takeWhile_eq_self_iff.mpr (by simpa using List.all_eq_true.mp hd)

theorem digit1_all {s : List Char} (hne : s ≠ []) (hd : s.all is_digit) :
    digit1 s = some ([], s) := by
  unfold digit1
  rw [all_digits_takeWhile hd]
  rw [if_neg (by simpa [List.isEmpty_iff] using hne), List.drop_length]

/-- C4: the DayOfWeekInMonth recognizer (pattern F) accepts every
nonempty ASCII digit run with no range check, while the DayOfWeek
recognizer (pattern u) accepts exactly a single digit whose value lies
in [1,7]; since the whole value must be consumed, validate_datetime on
an all-digit value succeeds under F always, and under u exactly for a
single in-range digit. -/
theorem c4_asymmetric_range : ∀ s : List Char, s ≠ [] → s.all is_digit →
    validate_datetime s "F".toList = Except.ok () ∧
    (validate_datetime s "u".toList = Except.ok () ↔
      ∃ c, s = [c] ∧ 1 ≤ c.toNat - 48 ∧ c.toNat - 48 ≤ 7) := by
  intro s hne hd
  have hpF : parse_pattern "F".toList = ([], [DateTimePatternToken.DayOfWeekInMonth]) := by
    decide
  have hpu : parse_pattern "u".toList = ([], [DateTimePatternToken.DayOfWeek]) := by decide
  constructor
  · rw [validate_datetime, hpF]
    simp [validate_datetime_string, applyTokens, digit1_all hne hd]
  · rw [validate_datetime, hpu]
    cases s with
    | nil => exact absurd rfl hne
    | cons c s2 =>
      have hc : is_digit c = true := List.all_eq_true.mp hd c (List.mem_cons_self c s2)
      have hmn : takeWhileMN 1 1 is_digit (c :: s2) = some (s2, [c]) := by
        unfold takeWhileMN
        rw [List.takeWhile_cons_of_pos hc]
        simp
      have hval : validate_day_of_week [c] =
          (decide (1 ≤ c.toNat - 48) && decide (c.toNat - 48 ≤ 7)) := by
        unfold validate_day_of_week validate_number parseUsize
        rw [if_pos (by simp [hc])]
        simp [natOfDigits]
      have hdow : day_of_week (c :: s2) =
          (if (decide (1 ≤ c.toNat - 48) && decide (c.toNat - 48 ≤ 7)) = true
           then some (s2, [c]) else none) := by
        unfold day_of_week mapRes
        rw [hmn]
        dsimp only
        rw [hval]
      by_cases hb : (decide (1 ≤ c.toNat - 48) && decide (c.toNat - 48 ≤ 7)) = true
      · rw [if_pos hb] at hdow
        have hv : validate_datetime_string (c :: s2) [DateTimePatternToken.DayOfWeek] =
            (if s2.length > 0 then Except.error (DTError.remainingData s2) else Except.ok ()) := by
          simp [validate_datetime_string, applyTokens, hdow]
        rw [hv]
        simp only [Bool.and_eq_true, decide_eq_true_eq] at hb
        cases s2 with
        | nil =>
          simp only [List.length_nil, gt_iff_lt, Nat.lt_irrefl, if_false]
          constructor
          · intro _
            exact ⟨c, rfl, hb.1, hb.2⟩
          · intro _
            trivial
        | cons d s3 =>
          simp only [List.length_cons, gt_iff_lt, Nat.succ_pos, if_true]
          constructor
          · intro habs
            cases habs
          · rintro ⟨c2, hceq, _, _⟩
            cases hceq
      · rw [if_neg hb] at hdow
        have hv : validate_datetime_string (c :: s2) [DateTimePatternToken.DayOfWeek] =
            Except.error (DTError.tokenFailure (c :: s2)) := by
          simp [validate_datetime_string, applyTokens, hdow]
        rw [hv]
        simp only [Bool.and_eq_true, decide_eq_true_eq, not_and] at hb
        constructor
        · intro habs
          cases habs
        · rintro ⟨c2, hceq, h1, h7⟩
          rw [List.cons_eq_cons] at hceq
          rcases hceq with ⟨rfl, rfl⟩
          exact absurd (hb h1) (by simpa using h7)

/-- C4 witness: concrete instances, a long digit run under F and the
single digit 3 under u. -/
theorem c4_witness :
    validate_datetime "123456789123456789247".toList "F".toList = Except.ok () ∧
    validate_datetime "3".toList "u".toList = Except.ok () := by
  refine ⟨(c4_asymmetric_range "123456789123456789247".toList (by decide) (by decide)).1, ?_⟩
  exact (c4_asymmetric_range "3".toList (by decide) (by decide)).2.mpr ⟨'3', rfl, by decide, by decide⟩


/-- C8: the DayInYear recognizer takes the maximal digit run of the
value capped at two characters, and accepts exactly when that run is
nonempty and its numeric value lies in the closed interval [1,356] —
the bound the code states, not the calendar bound 366 (unreachable
anyway for a two-digit run). -/
theorem c8_day_in_year : ∀ s : List Char,
    (∀ rest m, day_in_year s = some (rest, m) →
      m = (s.takeWhile is_digit).take 2 ∧ rest = s.drop m.length) ∧
    ((day_in_year s).isSome = true ↔
      ((s.takeWhile is_digit).take 2 ≠ [] ∧
        1 ≤ natOfDigits ((s.takeWhile is_digit).take 2) ∧
        natOfDigits ((s.takeWhile is_digit).take 2) ≤ 356)) := by
  intro s
  have hall : ((s.takeWhile is_digit).take 2).all is_digit = true := by
    rw [List.all_eq_true]
    intro a ha
    exact List.mem_takeWhile_imp (List.mem_of_mem_take ha)
  by_cases hne : (s.takeWhile is_digit).take 2 = []
  · have hmn : takeWhileMN 1 2 is_digit s = none := by
      unfold takeWhileMN
      rw [if_neg (by rw [hne]; simp)]
    have hnone : day_in_year s = none := by
      unfold day_in_year mapRes
      rw [hmn]
    constructor
    · intro rest m hsome
      rw [hnone] at hsome
      cases hsome
    · rw [hnone]
      simp [hne]
  · have hlen : 1 ≤ ((s.takeWhile is_digit).take 2).length := by
      rcases hq : (s.takeWhile is_digit).take 2 with _ | ⟨a, l⟩
      · exact absurd hq hne
      · simp
    have hmn : takeWhileMN 1 2 is_digit s =
        some (s.drop ((s.takeWhile is_digit).take 2).length, (s.takeWhile is_digit).take 2) := by
      unfold takeWhileMN
      rw [if_pos hlen]
    have hpu : parseUsize ((s.takeWhile is_digit).take 2) =
        some (natOfDigits ((s.takeWhile is_digit).take 2)) := by
      unfold parseUsize
      rw [if_pos ⟨hne, hall⟩]
    have hdy : day_in_year s =
        (if (decide (1 ≤ natOfDigits ((s.takeWhile is_digit).take 2)) &&
             decide (natOfDigits ((s.takeWhile is_digit).take 2) ≤ 356)) = true
         then some (s.drop ((s.takeWhile is_digit).take 2).length, (s.takeWhile is_digit).take 2)
         else none) := by
      unfold day_in_year mapRes
      rw [hmn]
      dsimp only
      unfold validate_day_in_year validate_number
      rw [hpu]
    constructor
    · intro rest m hsome
      rw [hdy] at hsome
      split at hsome
      · rw [Option.some.injEq, Prod.mk.injEq] at hsome
        obtain ⟨h1, h2⟩ := hsome
        subst h2
        subst h1
        exact ⟨rfl, rfl⟩
      · cases hsome
    · rw [hdy]
      split
      · rename_i hb
        simp only [Bool.and_eq_true, decide_eq_true_eq] at hb
        simp [hne, hb.1, hb.2]
      · rename_i hb
        simp only [Bool.and_eq_true, decide_eq_true_eq, not_and] at hb
        simp only [Option.isSome_none, Bool.false_eq_true, false_iff, not_and]
        intro _ h1
        intro h356
        exact absurd (hb h1) (by simpa using h356)

/-- C8 witness: the recognizer on the value 45x takes the run 45 and
leaves x. -/
theorem c8_witness :
    "45".toList = ("45x".toList.takeWhile is_digit).take 2 ∧
    "x".toList = "45x".toList.drop ("45".toList.length) :=
  (c8_day_in_year "45x".toList).1 "x".toList "45".toList (by decide)


theorem applyTokens_nil (buffer : List Char) : applyTokens buffer [] = Except.ok buffer := rfl

/-- C3: when every token recognizer succeeds in order, leaving the
final buffer, validation succeeds exactly when that buffer is empty,
and otherwise fails with an error reporting the remaining data. -/
theorem c3_trailing_data (value : List Char) (tokens : List DateTimePatternToken)
    (rest : List Char) (h : applyTokens value tokens = Except.ok rest) :
    (validate_datetime_string value tokens = Except.ok () ↔ rest = []) ∧
    (rest ≠ [] → validate_datetime_string value tokens = Except.error (DTError.remainingData rest)) := by
  unfold validate_datetime_string
  rw [h]
  cases rest with
  | nil => simp
  | cons c r => simp

/-- C3 witness: pattern dd on value 12x leaves x unconsumed. -/
theorem c3_witness :
    validate_datetime_string "12x".toList [DateTimePatternToken.DayInMonth] =
      Except.error (DTError.remainingData "x".toList) :=
  (c3_trailing_data "12x".toList [DateTimePatternToken.DayInMonth] "x".toList (by decide)).2
    (by decide)

/-- C10: the empty format compiles to no tokens, so validation of a
value against the empty format succeeds exactly when the value is
empty, and reports the whole value as trailing data otherwise. -/
theorem c10_empty_format :
    parse_pattern ([] : List Char) = ([], []) ∧
    ∀ value : List Char,
      (validate_datetime value [] = Except.ok () ↔ value = []) ∧
      (value ≠ [] → validate_datetime value [] = Except.error (DTError.remainingData value)) := by
  refine ⟨by decide, ?_⟩
  intro value
  have hp : validate_datetime value [] = validate_datetime_string value [] := by
    rw [validate_datetime]
    rfl
  rw [hp]
  unfold validate_datetime_string
  rw [applyTokens_nil]
  cases value with
  | nil => simp
  | cons c r => simp

/-- C10 witness. -/
theorem c10_witness :
    validate_datetime "z".toList [] = Except.error (DTError.remainingData "z".toList) :=
  ((c10_empty_format.2 "z".toList).2 (by decide))

/-- C5: quoted-literal round trips, exactly as in the Rust tests:
compiling a fully quoted literal yields one Text token with the quotes
stripped, a bare doubled apostrophe yields a Text token holding one
apostrophe, and doubled apostrophes inside a quote collapse to single
apostrophes. -/
theorem c5_quoted_literals :
    parse_pattern ([quoteCh] ++ "dd-MM-yyyy".toList ++ [quoteCh]) =
      ([], [DateTimePatternToken.Text "dd-MM-yyyy".toList]) ∧
    parse_pattern [quoteCh, quoteCh] = ([], [DateTimePatternToken.Text [quoteCh]]) ∧
    parse_pattern ([quoteCh] ++ "dd-".toList ++ [quoteCh, quoteCh] ++ "MM".toList ++
        [quoteCh, quoteCh] ++ "-yyyy".toList ++ [quoteCh]) =
      ([], [DateTimePatternToken.Text
        ("dd-".toList ++ [quoteCh] ++ "MM".toList ++ [quoteCh] ++ "-yyyy".toList)]) := by
  refine ⟨by decide, by decide, by decide⟩

/-- C2: the repo test expects this call to succeed, but the letters H,
m, s are not reserved, so the pattern suffix compiles to the literal
Text token " HH:mm:ss", which cannot match " 12:33:45": the call
fails at that token. -/
theorem c2_hhmmss_rejected :
    validate_datetime "2001-01-02 12:33:45".toList "yyyy-MM-dd HH:mm:ss".toList =
      Except.error (DTError.tokenFailure " 12:33:45".toList) := by
  decide


/-! ### Head-character lemmas for the pattern alternation -/

theorem letterRun_head_ne (c0 : Char) {c : Char} {s2 : List Char} (h : (c == c0) = false) :
    letterRun c0 (c :: s2) = none := by
  unfold letterRun
  rw [List.takeWhile_cons_of_neg (by simp [h])]
  rfl

theorem setRun_head_ne (cs : List Char) {c : Char} {s2 : List Char}
    (h : c ∉ cs) : setRun cs (c :: s2) = none := by
  unfold setRun
  rw [List.takeWhile_cons_of_neg (by simp [h])]
  rfl

theorem setRun_all {cs s : List Char} (hne : s ≠ [])
    (hall : ∀ a ∈ s, cs.contains a = true) : setRun cs s = some [] := by
  unfold setRun
  rw [List.takeWhile_eq_self_iff.mpr hall]
  rw [if_neg (by simpa [List.isEmpty_iff] using hne), List.drop_length]

theorem text_pattern_head_reserved {c : Char} {s2 : List Char}
    (h : c ∈ reservedChars) : text_pattern (c :: s2) = none := by
  unfold text_pattern
  rw [List.takeWhile_cons_of_neg (by simp [h])]
  rfl

/-- C6: any nonempty run of the letters y and Y compiles to exactly
the one-token sequence [Year]; hence validation against such a run
coincides with validation against the single-letter pattern y for
every value. -/
theorem c6_year_runs : ∀ s : List Char, s ≠ [] → (∀ c ∈ s, c = 'y' ∨ c = 'Y') →
    parse_pattern s = ([], [DateTimePatternToken.Year]) ∧
    ∀ value : List Char, validate_datetime value s = validate_datetime value "y".toList := by
  intro s hne hyY
  have hmain : parse_pattern s = ([], [DateTimePatternToken.Year]) := by
    rcases s with _ | ⟨c, s2⟩
    · exact absurd rfl hne
    have hy := hyY c (List.mem_cons_self c s2)
    have hstep : patternStep (c :: s2) = some ([], DateTimePatternToken.Year) := by
      have hG : era_pattern (c :: s2) = none := by
        unfold era_pattern
        rw [letterRun_head_ne 'G' (by rcases hy with rfl | rfl <;> decide)]
        rfl
      have hYr : year_pattern (c :: s2) = some ([], DateTimePatternToken.Year) := by
        unfold year_pattern
        rw [setRun_all (by simp) (by intro a ha; rcases hyY a ha with rfl | rfl <;> decide)]
        rfl
      unfold patternStep
      rw [hG, altp_none, hYr, altp_some]
    rw [parse_pattern, parsePatternGo, hstep]
    dsimp only
    rw [parsePatternGo_nil]
  refine ⟨hmain, fun value => ?_⟩
  unfold validate_datetime
  rw [hmain]
  have hy1 : parse_pattern "y".toList = ([], [DateTimePatternToken.Year]) := by decide
  rw [hy1]

/-- C6 witness: a mixed four-letter run behaves as the single y. -/
theorem c6_witness :
    parse_pattern "yYyy".toList = ([], [DateTimePatternToken.Year]) ∧
    validate_datetime "2077".toList "yYyy".toList =
      validate_datetime "2077".toList "y".toList :=
  ⟨(c6_year_runs "yYyy".toList (by decide) (by decide)).1,
   (c6_year_runs "yYyy".toList (by decide) (by decide)).2 "2077".toList⟩

/-! ### The unterminated-quote behaviour -/

theorem quotedSegs_noquote {rest : List Char} (h : quoteCh ∉ rest) :
    quotedSegs rest = (if rest = [] then ([], []) else ([rest], [])) := by
  induction rest with
  | nil => simp [quotedSegs]
  | cons c r ih =>
    have hc : ¬ c = quoteCh := by
      intro he
      exact h (he ▸ List.mem_cons_self c r)
    have hr : quoteCh ∉ r := fun hm => h (List.mem_cons_of_mem _ hm)
    have hrec := ih hr
    rw [quotedSegs.eq_def]
    dsimp only
    rw [if_neg hc, hrec]
    by_cases hrnil : r = []
    · subst hrnil
      simp
    · rw [if_neg hrnil]
      dsimp only
      have hh : ¬ (r.head? = some quoteCh) := by
        cases r with
        | nil => exact absurd rfl hrnil
        | cons a r2 =>
          simp only [List.head?_cons, Option.some.injEq]
          intro he
          exact hr (he ▸ List.mem_cons_self a r2)
      rw [if_neg hh]
      simp

theorem quote_pattern_unterminated {rest : List Char} (h : quoteCh ∉ rest) :
    quote_pattern (quoteCh :: rest) = none := by
  unfold quote_pattern
  refine if_neg ?_
  rw [List.take_succ_cons]
  intro hq
  rw [List.cons_eq_cons] at hq
  exact h (List.mem_of_mem_take (hq.2 ▸ List.mem_cons_self quoteCh []))

theorem quoted_text_pattern_unterminated {rest : List Char} (h : quoteCh ∉ rest) :
    quoted_text_pattern (quoteCh :: rest) = none := by
  by_cases hrnil : rest = []
  · subst hrnil
    decide
  · unfold quoted_text_pattern
    dsimp only
    rw [if_pos rfl, quotedSegs_noquote h, if_neg hrnil]
    dsimp only
    rw [if_neg (by simp)]

theorem patternStep_unterminated {rest : List Char} (h : quoteCh ∉ rest) :
    patternStep (quoteCh :: rest) = none := by
  unfold patternStep
  unfold era_pattern year_pattern month_pattern week_in_year_pattern week_in_month_pattern
    day_in_year_pattern day_in_month_pattern day_of_week_in_month_pattern day_name_pattern
    day_of_week_pattern
  rw [letterRun_head_ne 'G' (by decide)]
  rw [setRun_head_ne "yY".toList (by decide)]
  rw [setRun_head_ne "ML".toList (by decide)]
  rw [letterRun_head_ne 'w' (by decide)]
  rw [letterRun_head_ne 'W' (by decide)]
  rw [letterRun_head_ne 'D' (by decide)]
  rw [letterRun_head_ne 'd' (by decide)]
  rw [letterRun_head_ne 'F' (by decide)]
  rw [letterRun_head_ne 'E' (by decide)]
  rw [letterRun_head_ne 'u' (by decide)]
  rw [quoted_text_pattern_unterminated h, quote_pattern_unterminated h]
  rw [text_pattern_head_reserved (by decide)]
  rfl

/-- C1 counterexample: the format consisting of an unterminated quoted
literal does not make validate_datetime fail regardless of the value;
on the empty value it succeeds, because pattern compilation silently
stops at the unterminated quote instead of failing. -/
theorem c1_counterexample :
    validate_datetime [] (quoteCh :: "abc".toList) = Except.ok () := by decide

/-- C1 amended: a format headed by an unterminated quoted literal
compiles to no tokens with the whole format left unconsumed, and
validate_datetime surfaces no compilation error: it validates the
value against the (empty) token list compiled before the quote. -/
theorem c1_unterminated_quote : ∀ rest : List Char, quoteCh ∉ rest →
    parse_pattern (quoteCh :: rest) = (quoteCh :: rest, []) ∧
    ∀ value : List Char,
      validate_datetime value (quoteCh :: rest) = validate_datetime_string value [] := by
  intro rest h
  have hstep := patternStep_unterminated h
  have hmain : parse_pattern (quoteCh :: rest) = (quoteCh :: rest, []) := by
    rw [parse_pattern, parsePatternGo, hstep]
  refine ⟨hmain, fun value => ?_⟩
  rw [validate_datetime, hmain]

/-- C1 witness for the amended statement. -/
theorem c1_witness :
    parse_pattern (quoteCh :: "abc".toList) = (quoteCh :: "abc".toList, []) ∧
    validate_datetime "xyz".toList (quoteCh :: "abc".toList) =
      validate_datetime_string "xyz".toList [] :=
  ⟨(c1_unterminated_quote "abc".toList (by decide)).1,
   (c1_unterminated_quote "abc".toList (by decide)).2 "xyz".toList⟩

/-- C9: pattern compilation is total. Every successful recognizer step
consumes part of the format (so the nom many0 loop can neither fail
nor diverge), the loop stops exactly when no recognizer applies to the
remaining suffix (the tokens come from the longest recognizable
prefix), the suffix is discarded, and validate_datetime always
proceeds to value validation — concretely, a format with an
unterminated quote after yyyy validates the value 2000. -/
theorem c9_compile_total :
    (∀ (s r : List Char) (t : DateTimePatternToken),
      patternStep s = some (r, t) → r.length < s.length) ∧
    (∀ format : List Char, patternStep (parse_pattern format).1 = none) ∧
    (∀ value format : List Char,
      validate_datetime value format = validate_datetime_string value (parse_pattern format).2) ∧
    validate_datetime "2000".toList ("yyyy".toList ++ quoteCh :: "abc".toList) =
      Except.ok () := by
  refine ⟨fun s r t h => patternStep_lt h, parse_pattern_max, fun _ _ => rfl, by decide⟩

/-- C9 witness: a concrete consuming step. -/
theorem c9_witness : ("A".toList).length < ("yA".toList).length :=
  c9_compile_total.1 "yA".toList "A".toList DateTimePatternToken.Year (by decide)

end TimeUtils
